import Mathlib

/-!
Verification of the S3 download task core
(`src/Tasks/S3Download/helpers/DownloadTaskOperations.ts`) and the identity
resolution helper (`src/Tasks/Common/sdkutils/sdkutils.ts`).

The TypeScript source is shallowly embedded: each method of `TaskOperations`
becomes a Lean function over explicit inputs standing for the external
collaborators (the S3 listing responses, the local filesystem, the compiled
glob matchers).  Strings are Lean `String`s; positions are counted in
characters.
-/

namespace S3Download

/-- Model of JavaScript `String.prototype.endsWith`: `t` is a suffix of `s`.
(JavaScript compares code units, this model compares characters; the two agree
on the key alphabets involved.) -/
def strEndsWith (s t : String) : Bool := t.data.isSuffixOf s.data

/-- Model of JavaScript `String.prototype.startsWith`: `t` is a prefix of
`s`. -/
def strStartsWith (s t : String) : Bool := t.data.isPrefixOf s.data

/-- The suffix marking zero-byte folder placeholder objects, filtered out by
`fetchAllObjectKeys` (source line 150). -/
def folderMarker : String := "_$folder$"

/-- One page of `listObjects` results: the keys of `Contents` (sizes are unused
by the code) and the `NextMarker` continuation token.  A `none` marker is a
falsy `NextMarker`, ending the pagination loop. -/
structure ListPage where
  contents : List String
  nextMarker : Option String
deriving DecidableEq, Repr

/-- Embedding of `fetchAllObjectKeys` (source lines 129-161).  The bucket's
successive `listObjects` responses are given as a list consumed in request
order; `none` stands for a request that threw.  The do/while loop requests a
page, filters out keys ending in `_$folder$`, and continues while the response
supplies a continuation token.  A thrown request is caught: the error is
logged, `nextToken` is set to `null` and the loop exits, returning the keys
accumulated so far. -/
def fetchAllObjectKeys : List (Option ListPage) → List String
  | [] => []
  | none :: _ => []
  | some page :: rest =>
      page.contents.filter (fun k => !strEndsWith k folderMarker) ++
        match page.nextMarker with
        | some _ => fetchAllObjectKeys rest
        | none => []

/-- The keys carried by a response sequence, marker filtering and pagination
flow disregarded: all `Contents` keys of all successful pages in order. -/
def allListedKeys : List (Option ListPage) → List String
  | [] => []
  | none :: rest => allListedKeys rest
  | some page :: rest => page.contents ++ allListedKeys rest

/-- A response sequence in which every request succeeds and the continuation
tokens drive the loop through exactly the given pages: each page but the last
carries a token, the last does not. -/
def pagesOk : List (Option ListPage) → Bool
  | [] => false
  | none :: _ => false
  | some page :: rest =>
      match page.nextMarker with
      | none => rest.isEmpty
      | some _ => pagesOk rest

/-- Number of leading characters stripped from each key before glob testing
(source lines 164-170): `sourcePrefix.length + 1` when a source folder is
configured (JavaScript truthiness: the empty string counts as absent),
`0` otherwise. -/
def stripLen (sourceFolder : String) : Nat :=
  if sourceFolder = "" then 0 else sourceFolder.length + 1

/-- The prefix-stripped form of a key submitted to the matcher:
`key.substring(sourcePrefixLen)` (source line 175). -/
def stripKey (sourceFolder : String) (key : String) : String :=
  key.drop (stripLen sourceFolder)

/-- Embedding of `matchObjectKeys` (source lines 163-183).  The compiled
minimatch pattern is abstracted as the Boolean test `matcher`; each key is
tested on its prefix-stripped form and pushed in input order when it
matches. -/
def matchObjectKeys (allKeys : List String) (sourceFolder : String)
    (matcher : String → Bool) : List String :=
  allKeys.filter (fun key => matcher (stripKey sourceFolder key))

/-- Model of Node `path.basename` (posix): trailing separators dropped, then
the portion after the last remaining separator. -/
def basename (p : String) : String :=
  String.mk (((p.data.reverse.dropWhile (fun c => c == '/')).takeWhile
    (fun c => c != '/')).reverse)

/-- Model of Node `path.join` (posix) on two segments: joined by a single
separator, empty segments ignored.  (Node additionally collapses repeated
separators and dot segments; none arise in the claims considered.) -/
def joinPath (a b : String) : String :=
  if a = "" then b
  else if b = "" then a
  else if strEndsWith a "/" then a ++ b
  else a ++ "/" ++ b

/-- The task configuration consumed by `TaskOperations` (the fields of
`TaskParameters` the download core reads).  A compiled minimatch pattern is
abstracted as its Boolean test, so `globExpressions` holds one test per
configured glob expression, in configured order.  An empty `sourceFolder` is a
falsy (absent) source folder. -/
structure TaskParameters where
  bucketName : String
  sourceFolder : String
  targetFolder : String
  globExpressions : List (String → Bool)
  flattenFolders : Bool
  overwrite : Bool

/-- The destination path computed for a matched key (source lines 80-86):
the base filename under the target folder when flattening, the full key under
the target folder otherwise. -/
def destPath (p : TaskParameters) (matchedKey : String) : String :=
  if p.flattenFolders then joinPath p.targetFolder (basename matchedKey)
  else joinPath p.targetFolder matchedKey

/-- The errors thrown by the embedded operations. -/
inductive DownloadTaskError where
  /-- `BucketNotExist`, thrown by `execute` when the head-bucket probe
  fails (source line 31). -/
  | bucketNotFound (bucketName : String)
  /-- `FileExistsError`, thrown by `downloadFiles` naming the local path and
  the remote key (source line 92). -/
  | fileExists (dest key : String)
deriving DecidableEq, Repr

/-- A download queued by `downloadFiles`: the `GetObjectRequest`'s bucket and
key together with the local destination handed to `downloadFile` (source
lines 96-105). -/
structure QueuedDownload where
  bucketName : String
  key : String
  dest : String
deriving DecidableEq, Repr

/-- The log lines `downloadFiles` emits per matched key. -/
inductive LogEvent where
  /-- `FileOverwriteWarning` (source line 90). -/
  | overwriteWarning (dest key : String)
  /-- `QueueingDownload` (source line 96). -/
  | queueingDownload (key : String)
deriving DecidableEq, Repr

/-- The state threaded through `downloadFiles`' loops: the downloads queued so
far and the log lines emitted so far. -/
abbrev OrchestratorState := List QueuedDownload × List LogEvent

/-- The per-matched-key body of `downloadFiles`' inner loop (source lines
80-105).  `fsExists` is the local filesystem's file-existence test
(`fs.existsSync`).  When the destination exists, overwrite permission turns
the collision into a warning; without it a `FileExistsError` is thrown.
Otherwise the key's download is logged and queued. -/
def processMatchedKey (p : TaskParameters) (fsExists : String → Bool)
    (st : OrchestratorState) (matchedKey : String) :
    Except DownloadTaskError OrchestratorState :=
  let dest := destPath p matchedKey
  if fsExists dest then
    if p.overwrite then
      .ok (st.1 ++ [⟨p.bucketName, matchedKey, dest⟩],
           st.2 ++ [.overwriteWarning dest matchedKey, .queueingDownload matchedKey])
    else
      .error (.fileExists dest matchedKey)
  else
    .ok (st.1 ++ [⟨p.bucketName, matchedKey, dest⟩],
         st.2 ++ [.queueingDownload matchedKey])

/-- `downloadFiles`' inner loop over one glob's matched keys: a thrown
`FileExistsError` aborts the whole iteration. -/
def processMatchedKeys (p : TaskParameters) (fsExists : String → Bool) :
    OrchestratorState → List String → Except DownloadTaskError OrchestratorState
  | st, [] => .ok st
  | st, k :: rest =>
      match processMatchedKey p fsExists st k with
      | .error e => .error e
      | .ok st' => processMatchedKeys p fsExists st' rest

/-- `downloadFiles`' outer loop over the configured glob expressions (source
lines 77-107): each glob's matches are computed against the full key set and
processed in order. -/
def processGlobs (p : TaskParameters) (fsExists : String → Bool)
    (allKeys : List String) :
    OrchestratorState → List (String → Bool) →
      Except DownloadTaskError OrchestratorState
  | st, [] => .ok st
  | st, glob :: rest =>
      match processMatchedKeys p fsExists st
          (matchObjectKeys allKeys p.sourceFolder glob) with
      | .error e => .error e
      | .ok st' => processGlobs p fsExists allKeys st' rest

/-- Embedding of `downloadFiles` (source lines 61-110): fetch all object keys
once, then for each glob expression in order queue one download per matched
key, subject to the overwrite check.  The result is the queued downloads and
the emitted log, or the first thrown error. -/
def downloadFiles (p : TaskParameters) (fsExists : String → Bool)
    (pages : List (Option ListPage)) :
    Except DownloadTaskError OrchestratorState :=
  processGlobs p fsExists (fetchAllObjectKeys pages) ([], []) p.globExpressions

/-- Embedding of `testBucketExists` (source lines 52-59): true when the
`headBucket` call succeeds, false when it throws. -/
def testBucketExists (headBucketResult : Except String Unit) : Bool :=
  match headBucketResult with
  | .ok _ => true
  | .error _ => false

/-- Embedding of `execute` (source lines 26-37): probe the bucket, throw
`BucketNotExist` when the probe fails, otherwise run `downloadFiles`. -/
def execute (headBucketResult : Except String Unit) (p : TaskParameters)
    (fsExists : String → Bool) (pages : List (Option ListPage)) :
    Except DownloadTaskError OrchestratorState :=
  if testBucketExists headBucketResult then downloadFiles p fsExists pages
  else .error (.bucketNotFound p.bucketName)

/-- The events a single transfer's two streams can emit, in the order they are
observed: data flowing through the pipe, an error from the S3 read stream, an
error from the local write stream, or the write stream's `close` after its
flush. -/
inductive StreamEvent where
  | dataChunk
  | srcError
  | sinkError
  | sinkClose
deriving DecidableEq, Repr

/-- How the promise returned by `downloadFile` settles. -/
inductive FetchOutcome where
  | success
  | streamError
deriving DecidableEq, Repr

/-- Embedding of `downloadFile` (source lines 112-127): the promise rejects on
the first `error` event of either stream and resolves on the write stream's
`close` event; the first such event wins and later events are ignored.
`none` means the event sequence never settles the promise. -/
def downloadFile : List StreamEvent → Option FetchOutcome
  | [] => none
  | .dataChunk :: rest => downloadFile rest
  | .srcError :: _ => some .streamError
  | .sinkError :: _ => some .streamError
  | .sinkClose :: _ => some .success

end S3Download

namespace SdkUtilsM

/-- Embedding of `SdkUtils.roleArnFromName`
(`src/Tasks/Common/sdkutils/sdkutils.ts` lines 104-119).  `getRole` stands for
the IAM collaborator: it yields the named role's ARN or throws with a message.
A name already in ARN form (starting with `arn:`) is returned unchanged;
otherwise the resolved ARN is returned, and a resolution failure is rethrown
as an `Error while obtaining ARN`. -/
def roleArnFromName (getRole : String → Except String String)
    (roleName : String) : Except String String :=
  if S3Download.strStartsWith roleName "arn:" then .ok roleName
  else
    match getRole roleName with
    | .ok arn => .ok arn
    | .error err => .error ("Error while obtaining ARN: " ++ err)

end SdkUtilsM

namespace S3Download

/-- The destination-path rule as the specification states it: a pure function
of the key, the target folder and the flatten flag alone.  Stated for
comparison with `destPath`, which reads those inputs off the full parameter
bundle. -/
def destPathSpec (key targetFolder : String) (flatten : Bool) : String :=
  if flatten then joinPath targetFolder (basename key)
  else joinPath targetFolder key

/-- Specification vocabulary: the downloads `downloadFiles` queues when no
collision aborts it — one download per matched key per glob expression, in
configured order. -/
def plannedQueue (p : TaskParameters) (allKeys : List String) :
    List (String → Bool) → List QueuedDownload
  | [] => []
  | glob :: rest =>
      (matchObjectKeys allKeys p.sourceFolder glob).map
          (fun k => ⟨p.bucketName, k, destPath p k⟩)
        ++ plannedQueue p allKeys rest

/-- Claim C1: the claim says a failed listing page request fails the whole
key-listing operation with a `ListingError` and that a partial key set is
never returned silently.  The code instead catches the page error, logs it,
and exits the loop normally: on a run whose second page request throws, it
returns just the first page's keys — a partial key set with no error signal.
The same bucket listed without the failure yields the larger key set, so the
failing run silently dropped `docs/b.txt`. -/
theorem fetchAllObjectKeys_swallows_failed_page :
    fetchAllObjectKeys [some ⟨["docs/a.txt"], some "continuation"⟩, none]
        = ["docs/a.txt"] ∧
      fetchAllObjectKeys [some ⟨["docs/a.txt"], some "continuation"⟩,
          some ⟨["docs/b.txt"], none⟩]
        = ["docs/a.txt", "docs/b.txt"] :=
  ⟨rfl, rfl⟩

/-- Helper for claim C2: over a fully successful, fully consumed response
sequence, the pagination loop returns exactly the listed keys with the
`_$folder$` markers filtered out, in listing order. -/
theorem fetchAllObjectKeys_eq_filter :
    ∀ pages : List (Option ListPage), pagesOk pages = true →
      fetchAllObjectKeys pages
        = (allListedKeys pages).filter (fun k => !strEndsWith k folderMarker) := by
  intro pages
  induction pages with
  | nil => intro h; simp [pagesOk] at h
  | cons first rest ih =>
      intro h
      cases first with
      | none => simp [pagesOk] at h
      | some page =>
          cases hm : page.nextMarker with
          | none =>
              have hrest : rest = [] := by
                rw [pagesOk, hm] at h
                exact List.isEmpty_iff.mp h
              subst hrest
              simp [fetchAllObjectKeys, allListedKeys, hm]
          | some tok =>
              have hrest : pagesOk rest = true := by rwa [pagesOk, hm] at h
              simp [fetchAllObjectKeys, allListedKeys, hm, ih hrest,
                List.filter_append]

/-- Claim C2: for every fully listed response sequence, the key listing
excludes exactly the keys ending in the `_$folder$` marker suffix and keeps
every other listed key, so no marker key reaches the glob-matching stage. -/
theorem fetchAllObjectKeys_filters_markers (pages : List (Option ListPage))
    (hok : pagesOk pages = true) :
    fetchAllObjectKeys pages
        = (allListedKeys pages).filter (fun k => !strEndsWith k folderMarker) ∧
      (∀ k ∈ fetchAllObjectKeys pages, strEndsWith k folderMarker = false) ∧
      (∀ k ∈ allListedKeys pages, strEndsWith k folderMarker = false →
        k ∈ fetchAllObjectKeys pages) := by
  have heq := fetchAllObjectKeys_eq_filter pages hok
  refine ⟨heq, ?_, ?_⟩
  · intro k hk
    rw [heq] at hk
    have := (List.mem_filter.mp hk).2
    simpa using this
  · intro k hk hnm
    rw [heq]
    exact List.mem_filter.mpr ⟨hk, by simp [hnm]⟩

/-- Witness for claim C2 at a concrete two-page listing containing a folder
marker. -/
theorem fetchAllObjectKeys_filters_markers_witness :
    pagesOk [some ⟨["docs/a.txt", "docs/_$folder$"], some "t"⟩,
        some ⟨["docs/b.txt"], none⟩] = true ∧
      fetchAllObjectKeys [some ⟨["docs/a.txt", "docs/_$folder$"], some "t"⟩,
          some ⟨["docs/b.txt"], none⟩]
        = (allListedKeys [some ⟨["docs/a.txt", "docs/_$folder$"], some "t"⟩,
            some ⟨["docs/b.txt"], none⟩]).filter
              (fun k => !strEndsWith k folderMarker) :=
  ⟨by decide,
    (fetchAllObjectKeys_filters_markers
      [some ⟨["docs/a.txt", "docs/_$folder$"], some "t"⟩,
        some ⟨["docs/b.txt"], none⟩] (by decide)).1⟩

/-- Claim C3: a key is returned by the matcher exactly when it is an input
key whose remainder, after dropping `sourceFolder.length + 1` leading
characters when a source folder is configured and nothing otherwise,
satisfies the glob test. -/
theorem matchObjectKeys_strip_semantics (allKeys : List String)
    (sourceFolder : String) (matcher : String → Bool) (key : String) :
    key ∈ matchObjectKeys allKeys sourceFolder matcher ↔
      key ∈ allKeys ∧
        matcher (key.drop
          (if sourceFolder = "" then 0 else sourceFolder.length + 1)) = true := by
  simp [matchObjectKeys, stripKey, stripLen, List.mem_filter]

/-- Witness for claim C3 on a concrete key set with a configured source
folder. -/
theorem matchObjectKeys_strip_semantics_witness :
    "docs/a.txt" ∈ matchObjectKeys ["docs/a.txt", "images/c.png"] "docs"
        (fun s => strEndsWith s ".txt") ∧
      ("docs/a.txt" ∈ (["docs/a.txt", "images/c.png"] : List String) ∧
        strEndsWith ("docs/a.txt".drop
          (if ("docs" : String) = "" then 0 else "docs".length + 1)) ".txt" = true) :=
  ⟨(matchObjectKeys_strip_semantics ["docs/a.txt", "images/c.png"] "docs"
      (fun s => strEndsWith s ".txt") "docs/a.txt").mpr ⟨by decide, by decide⟩,
    by decide, by decide⟩

/-- A single matched key with an existing destination and no overwrite
permission makes `processMatchedKey` throw the `FileExistsError`, whatever
state the loop has accumulated. -/
theorem processMatchedKey_error_shape (p : TaskParameters)
    (fsExists : String → Bool) (st : OrchestratorState) (k : String)
    (e : DownloadTaskError)
    (h : processMatchedKey p fsExists st k = .error e) :
    e = .fileExists (destPath p k) k ∧ fsExists (destPath p k) = true ∧
      p.overwrite = false := by
  by_cases hfs : fsExists (destPath p k) = true
  · by_cases hov : p.overwrite = true
    · simp [processMatchedKey, hfs, hov] at h
    · have hov2 : p.overwrite = false := by
        cases hb : p.overwrite
        · rfl
        · exact absurd hb hov
      refine ⟨?_, hfs, hov2⟩
      simp [processMatchedKey, hfs, hov2] at h
      exact h.symm
  · have hfs2 : fsExists (destPath p k) = false := by
      cases hb : fsExists (destPath p k)
      · rfl
      · exact absurd hb hfs
    simp [processMatchedKey, hfs2] at h

/-- If the inner loop's key list contains a colliding key and overwrite is
off, the loop throws, from any accumulated state. -/
theorem processMatchedKeys_error_of_mem (p : TaskParameters)
    (fsExists : String → Bool) (k : String)
    (hex : fsExists (destPath p k) = true) (hov : p.overwrite = false) :
    ∀ ks, k ∈ ks → ∀ st, ∃ e,
      processMatchedKeys p fsExists st ks = .error e := by
  intro ks
  induction ks with
  | nil => intro h; cases h
  | cons a rest ih =>
      intro hmem st
      cases hpk : processMatchedKey p fsExists st a with
      | error e => exact ⟨e, by simp [processMatchedKeys, hpk]⟩
      | ok st2 =>
          have hak : a ≠ k := by
            intro h
            subst h
            simp [processMatchedKey, hex, hov] at hpk
          have hkr : k ∈ rest := by
            rcases List.mem_cons.mp hmem with h | h
            · exact absurd h.symm hak
            · exact h
          obtain ⟨e, he⟩ := ih hkr st2
          exact ⟨e, by simp [processMatchedKeys, hpk, he]⟩

/-- Every error the inner loop returns is a `FileExistsError` naming the
colliding destination and its key, thrown only when overwrite is off. -/
theorem processMatchedKeys_error_shape (p : TaskParameters)
    (fsExists : String → Bool) :
    ∀ ks st e, processMatchedKeys p fsExists st ks = .error e →
      ∃ d k, e = .fileExists d k ∧ d = destPath p k ∧ fsExists d = true ∧
        p.overwrite = false := by
  intro ks
  induction ks with
  | nil => intro st e h; simp [processMatchedKeys] at h
  | cons a rest ih =>
      intro st e h
      cases hpk : processMatchedKey p fsExists st a with
      | error e2 =>
          have he2 : e2 = e := by
            simp [processMatchedKeys, hpk] at h
            exact h
          subst he2
          obtain ⟨h1, h2, h3⟩ := processMatchedKey_error_shape p fsExists st a e2 hpk
          exact ⟨destPath p a, a, h1, rfl, h2, h3⟩
      | ok st2 =>
          apply ih st2 e
          simpa [processMatchedKeys, hpk] using h

/-- If some configured glob matches a colliding key and overwrite is off, the
outer loop throws, from any accumulated state. -/
theorem processGlobs_error_of_match (p : TaskParameters)
    (fsExists : String → Bool) (allKeys : List String) (g : String → Bool)
    (k : String) (hex : fsExists (destPath p k) = true)
    (hov : p.overwrite = false)
    (hmatch : k ∈ matchObjectKeys allKeys p.sourceFolder g) :
    ∀ globs, g ∈ globs → ∀ st, ∃ e,
      processGlobs p fsExists allKeys st globs = .error e := by
  intro globs
  induction globs with
  | nil => intro h; cases h
  | cons b rest ih =>
      intro hg st
      cases hpb : processMatchedKeys p fsExists st
          (matchObjectKeys allKeys p.sourceFolder b) with
      | error e => exact ⟨e, by simp [processGlobs, hpb]⟩
      | ok st2 =>
          have hgr : g ∈ rest := by
            rcases List.mem_cons.mp hg with h | h
            · exfalso
              subst h
              obtain ⟨e, he⟩ := processMatchedKeys_error_of_mem p fsExists k hex
                hov _ hmatch st
              cases he.symm.trans hpb
            · exact h
          obtain ⟨e, he⟩ := ih hgr st2
          exact ⟨e, by simp [processGlobs, hpb, he]⟩

/-- Every error the outer loop returns is a `FileExistsError` naming an
existing destination and its key, thrown only when overwrite is off. -/
theorem processGlobs_error_shape (p : TaskParameters)
    (fsExists : String → Bool) (allKeys : List String) :
    ∀ globs st e, processGlobs p fsExists allKeys st globs = .error e →
      ∃ d k, e = .fileExists d k ∧ d = destPath p k ∧ fsExists d = true ∧
        p.overwrite = false := by
  intro globs
  induction globs with
  | nil => intro st e h; simp [processGlobs] at h
  | cons b rest ih =>
      intro st e h
      cases hpb : processMatchedKeys p fsExists st
          (matchObjectKeys allKeys p.sourceFolder b) with
      | error e2 =>
          have he2 : e2 = e := by
            simp [processGlobs, hpb] at h
            exact h
          subst he2
          exact processMatchedKeys_error_shape p fsExists _ st e2 hpb
      | ok st2 =>
          apply ih st2 e
          simpa [processGlobs, hpb] using h

/-- Claim C5: at a matched key whose destination already exists, overwrite off
makes the step throw the `FileExistsError` naming the local path and the
remote key without queueing that download in any state, while overwrite on
queues the download after logging the overwrite warning; and whenever some
configured glob produces such a colliding match with overwrite off, the whole
`downloadFiles` run fails with a `FileExistsError` naming an existing
destination path and its key, returning no download queue at all. -/
theorem downloadFiles_overwrite_policy (p : TaskParameters)
    (fsExists : String → Bool) (pages : List (Option ListPage))
    (st : OrchestratorState) (matchedKey : String)
    (hex : fsExists (destPath p matchedKey) = true) :
    (p.overwrite = false →
      processMatchedKey p fsExists st matchedKey
        = .error (.fileExists (destPath p matchedKey) matchedKey)) ∧
    (p.overwrite = true →
      processMatchedKey p fsExists st matchedKey
        = .ok (st.1 ++ [⟨p.bucketName, matchedKey, destPath p matchedKey⟩],
            st.2 ++ [.overwriteWarning (destPath p matchedKey) matchedKey,
              .queueingDownload matchedKey])) ∧
    (p.overwrite = false →
      ∀ glob ∈ p.globExpressions,
        matchedKey ∈ matchObjectKeys (fetchAllObjectKeys pages)
          p.sourceFolder glob →
        ∃ d k, downloadFiles p fsExists pages = .error (.fileExists d k) ∧
          d = destPath p k ∧ fsExists d = true) := by
  refine ⟨fun hov => by simp [processMatchedKey, hex, hov],
    fun hov => by simp [processMatchedKey, hex, hov],
    fun hov glob hg hm => ?_⟩
  obtain ⟨e, he⟩ := processGlobs_error_of_match p fsExists
    (fetchAllObjectKeys pages) glob matchedKey hex hov hm p.globExpressions
    hg ([], [])
  obtain ⟨d, k, he2, hd, hfs, -⟩ := processGlobs_error_shape p fsExists
    (fetchAllObjectKeys pages) p.globExpressions ([], []) e he
  subst he2
  exact ⟨d, k, by simpa [downloadFiles] using he, hd, hfs⟩

/-- Witness for claim C5: with one key `a.txt`, target `t`, no overwrite
permission, and `t/a.txt` already on disk, the step throws the
`FileExistsError`. -/
theorem downloadFiles_overwrite_policy_witness :
    processMatchedKey ⟨"bkt", "", "t", [fun _ => true], false, false⟩
        (fun d => d == "t/a.txt") ([], []) "a.txt"
      = .error (.fileExists "t/a.txt" "a.txt") :=
  (downloadFiles_overwrite_policy ⟨"bkt", "", "t", [fun _ => true], false, false⟩
    (fun d => d == "t/a.txt") [some ⟨["a.txt"], none⟩] ([], []) "a.txt" rfl).1 rfl

/-- When every collision is covered by overwrite permission, the inner loop
succeeds and appends exactly one queued download per matched key, in order. -/
theorem processMatchedKeys_ok_queue (p : TaskParameters)
    (fsExists : String → Bool)
    (hok : ∀ k, fsExists (destPath p k) = true → p.overwrite = true) :
    ∀ ks st, ∃ logs, processMatchedKeys p fsExists st ks
        = .ok (st.1 ++ ks.map (fun k => ⟨p.bucketName, k, destPath p k⟩),
            logs) := by
  intro ks
  induction ks with
  | nil => intro st; exact ⟨st.2, by simp [processMatchedKeys]⟩
  | cons a rest ih =>
      intro st
      by_cases hfs : fsExists (destPath p a) = true
      · have hov := hok a hfs
        obtain ⟨logs, hl⟩ := ih (st.1 ++ [⟨p.bucketName, a, destPath p a⟩],
          st.2 ++ [.overwriteWarning (destPath p a) a, .queueingDownload a])
        refine ⟨logs, ?_⟩
        rw [show processMatchedKeys p fsExists st (a :: rest)
            = processMatchedKeys p fsExists
                (st.1 ++ [⟨p.bucketName, a, destPath p a⟩],
                  st.2 ++ [.overwriteWarning (destPath p a) a,
                    .queueingDownload a]) rest from by
              simp [processMatchedKeys, processMatchedKey, hfs, hov], hl]
        simp
      · have hfs2 : fsExists (destPath p a) = false := by
          cases hb : fsExists (destPath p a)
          · rfl
          · exact absurd hb hfs
        obtain ⟨logs, hl⟩ := ih (st.1 ++ [⟨p.bucketName, a, destPath p a⟩],
          st.2 ++ [.queueingDownload a])
        refine ⟨logs, ?_⟩
        rw [show processMatchedKeys p fsExists st (a :: rest)
            = processMatchedKeys p fsExists
                (st.1 ++ [⟨p.bucketName, a, destPath p a⟩],
                  st.2 ++ [.queueingDownload a]) rest from by
              simp [processMatchedKeys, processMatchedKey, hfs2], hl]
        simp

/-- When every collision is covered by overwrite permission, the outer loop
succeeds and appends exactly the planned queue. -/
theorem processGlobs_ok_queue (p : TaskParameters) (fsExists : String → Bool)
    (allKeys : List String)
    (hok : ∀ k, fsExists (destPath p k) = true → p.overwrite = true) :
    ∀ globs st, ∃ logs, processGlobs p fsExists allKeys st globs
        = .ok (st.1 ++ plannedQueue p allKeys globs, logs) := by
  intro globs
  induction globs with
  | nil => intro st; exact ⟨st.2, by simp [processGlobs, plannedQueue]⟩
  | cons b rest ih =>
      intro st
      obtain ⟨logs1, h1⟩ := processMatchedKeys_ok_queue p fsExists hok
        (matchObjectKeys allKeys p.sourceFolder b) st
      obtain ⟨logs2, h2⟩ := ih
        (st.1 ++ (matchObjectKeys allKeys p.sourceFolder b).map
          (fun k => ⟨p.bucketName, k, destPath p k⟩), logs1)
      refine ⟨logs2, ?_⟩
      rw [show processGlobs p fsExists allKeys st (b :: rest)
          = processGlobs p fsExists allKeys
              (st.1 ++ (matchObjectKeys allKeys p.sourceFolder b).map
                (fun k => ⟨p.bucketName, k, destPath p k⟩), logs1) rest from by
            simp [processGlobs, h1], h2]
      simp [plannedQueue]

/-- Counting queued downloads through the key-to-download map: one queued
download per listed key occurrence. -/
theorem mapTask_countP (p : TaskParameters) (key : String) :
    ∀ ks : List String,
      (ks.map (fun k =>
          (⟨p.bucketName, k, destPath p k⟩ : QueuedDownload))).countP
          (fun t => t.key == key)
        = ks.countP (fun a => a == key) := by
  intro ks
  induction ks with
  | nil => simp
  | cons a rest ih => simp [List.countP_cons, ih]

/-- The matcher keeps all occurrences of a key when its stripped form passes
the glob test and none otherwise. -/
theorem matchObjectKeys_countP (src : String) (g : String → Bool)
    (key : String) :
    ∀ allKeys : List String,
      (matchObjectKeys allKeys src g).countP (fun a => a == key)
        = if g (stripKey src key) = true
            then allKeys.countP (fun a => a == key) else 0 := by
  intro allKeys
  induction allKeys with
  | nil => simp [matchObjectKeys]
  | cons a rest ih =>
      simp only [matchObjectKeys, List.filter_cons] at ih ⊢
      by_cases hg : g (stripKey src a) = true
      · by_cases hak : (a == key) = true
        · have hak2 : a = key := eq_of_beq hak
          subst hak2
          simp [hg, List.countP_cons, ih]
        · simp [hg, List.countP_cons, hak, ih]
      · by_cases hak : (a == key) = true
        · have hak2 : a = key := eq_of_beq hak
          subst hak2
          have hg2 : g (stripKey src a) = false := by
            cases hb : g (stripKey src a)
            · rfl
            · exact absurd hb hg
          simp [hg2, ih]
        · have hg2 : g (stripKey src a) = false := by
            cases hb : g (stripKey src a)
            · rfl
            · exact absurd hb hg
          simp [hg2, hak, List.countP_cons, ih]

/-- The planned queue holds, for each key, one download per glob expression
passing on the key's stripped form, per occurrence of the key in the listed
set. -/
theorem plannedQueue_countP (p : TaskParameters) (allKeys : List String)
    (key : String) :
    ∀ globs : List (String → Bool),
      (plannedQueue p allKeys globs).countP (fun t => t.key == key)
        = globs.countP (fun g => g (stripKey p.sourceFolder key))
            * allKeys.countP (fun a => a == key) := by
  intro globs
  induction globs with
  | nil => simp [plannedQueue]
  | cons b rest ih =>
      simp only [plannedQueue, List.countP_append, List.countP_cons,
        mapTask_countP, matchObjectKeys_countP, ih]
      by_cases hb : b (stripKey p.sourceFolder key) = true
      · simp [hb]
        ring
      · have hb2 : b (stripKey p.sourceFolder key) = false := by
          cases hx : b (stripKey p.sourceFolder key)
          · rfl
          · exact absurd hx hb
        simp [hb2]

/-- Claim C6: when no collision aborts the run and a key is listed exactly
once, `downloadFiles` queues one download of that key per glob expression
whose test passes on the key's stripped form — duplicates across patterns are
not deduplicated. -/
theorem downloadFiles_no_dedup (p : TaskParameters) (fsExists : String → Bool)
    (pages : List (Option ListPage)) (key : String)
    (hok : ∀ k, fsExists (destPath p k) = true → p.overwrite = true)
    (hcount : (fetchAllObjectKeys pages).countP (fun a => a == key) = 1) :
    ∃ queue logs, downloadFiles p fsExists pages = .ok (queue, logs) ∧
      queue.countP (fun t => t.key == key)
        = p.globExpressions.countP
            (fun g => g (stripKey p.sourceFolder key)) := by
  obtain ⟨logs, hq⟩ := processGlobs_ok_queue p fsExists
    (fetchAllObjectKeys pages) hok p.globExpressions ([], [])
  refine ⟨plannedQueue p (fetchAllObjectKeys pages) p.globExpressions, logs,
    ?_, ?_⟩
  · simpa [downloadFiles] using hq
  · rw [plannedQueue_countP, hcount, Nat.mul_one]

/-- Witness for claim C6: one listed key, two glob expressions both matching
it, an empty target — two downloads of the key are queued. -/
theorem downloadFiles_no_dedup_witness :
    ∃ queue logs,
      downloadFiles
          ⟨"bkt", "", "t", [fun _ => true, fun s => strEndsWith s ".txt"],
            false, false⟩
          (fun _ => false) [some ⟨["a.txt"], none⟩] = .ok (queue, logs) ∧
        queue.countP (fun t => t.key == "a.txt") = 2 := by
  obtain ⟨queue, logs, h1, h2⟩ := downloadFiles_no_dedup
    ⟨"bkt", "", "t", [fun _ => true, fun s => strEndsWith s ".txt"],
      false, false⟩
    (fun _ => false) [some ⟨["a.txt"], none⟩] "a.txt"
    (fun k hk => by simp at hk) (by decide)
  refine ⟨queue, logs, h1, ?_⟩
  rw [h2]
  decide

/-- Claim C4: the destination path is a function of the matched key, the
target folder and the flatten flag alone — `destPath` agrees with the
specification formula `destPathSpec` on every parameter bundle — and on the
key `a/b/c.txt` flattening keeps only the basename `c.txt` while
non-flattening preserves the whole key under the target folder. -/
theorem destPath_deterministic (p : TaskParameters) (key : String) :
    destPath p key = destPathSpec key p.targetFolder p.flattenFolders ∧
      (∀ t, destPathSpec "a/b/c.txt" t true = joinPath t "c.txt") ∧
      (∀ t, destPathSpec "a/b/c.txt" t false = joinPath t "a/b/c.txt") :=
  ⟨rfl, fun _ => rfl, fun _ => rfl⟩

/-- Witness for claim C4 at a concrete parameter bundle and key. -/
theorem destPath_deterministic_witness :
    destPath ⟨"bkt", "", "t", [], true, false⟩ "a/b/c.txt"
      = destPathSpec "a/b/c.txt" "t" true :=
  (destPath_deterministic ⟨"bkt", "", "t", [], true, false⟩ "a/b/c.txt").1

/-- Claim C7: when the pre-flight `headBucket` probe throws, `execute` fails
with the bucket-not-found error, and the outcome is the same whatever the
bucket listing and local filesystem hold — no listing result or filesystem
state is consulted, so no partial work can depend on them. -/
theorem execute_aborts_when_bucket_missing (errMsg : String)
    (p : TaskParameters) (fsExists : String → Bool)
    (pages : List (Option ListPage)) :
    execute (.error errMsg) p fsExists pages
        = .error (.bucketNotFound p.bucketName) ∧
      ∀ (fsExists2 : String → Bool) (pages2 : List (Option ListPage)),
        execute (.error errMsg) p fsExists2 pages2
          = execute (.error errMsg) p fsExists pages :=
  ⟨rfl, fun _ _ => rfl⟩

/-- Witness for claim C7 at a concrete failing probe. -/
theorem execute_aborts_when_bucket_missing_witness :
    execute (.error "404") ⟨"mybucket", "", "t", [], false, false⟩
        (fun _ => false) []
      = .error (.bucketNotFound "mybucket") :=
  (execute_aborts_when_bucket_missing "404"
    ⟨"mybucket", "", "t", [], false, false⟩ (fun _ => false) []).1

/-- Claim C8: a single transfer resolves successfully exactly when the
destination sink's `close` event (its fully-flushed-and-closed signal) is the
first non-data event observed, and any source-stream or sink error arriving
while only data has flowed settles the transfer as a stream error. -/
theorem downloadFile_stream_errors (events : List StreamEvent) :
    (downloadFile events = some .success ↔
      ∃ pre post, events = pre ++ .sinkClose :: post ∧
        ∀ e ∈ pre, e = .dataChunk) ∧
    (∀ pre post err, events = pre ++ err :: post →
      (∀ e ∈ pre, e = .dataChunk) →
      (err = .srcError ∨ err = .sinkError) →
      downloadFile events = some .streamError) := by
  induction events with
  | nil =>
      constructor
      · constructor
        · intro h
          simp [downloadFile] at h
        · rintro ⟨pre, post, h, -⟩
          exact absurd h (by simp)
      · intro pre post err h _ _
        exact absurd h (by simp)
  | cons a rest ih =>
      cases a with
      | dataChunk =>
          constructor
          · rw [show downloadFile (.dataChunk :: rest) = downloadFile rest
                from rfl, ih.1]
            constructor
            · rintro ⟨pre, post, hre, hall⟩
              refine ⟨.dataChunk :: pre, post, by simp [hre], ?_⟩
              intro e he
              rcases List.mem_cons.mp he with h | h
              · exact h
              · exact hall e h
            · rintro ⟨pre, post, heq, hall⟩
              cases pre with
              | nil => simp at heq
              | cons b pre2 =>
                  rw [List.cons_append] at heq
                  injection heq with h1 h2
                  exact ⟨pre2, post, h2,
                    fun e he => hall e (List.mem_cons_of_mem b he)⟩
          · intro pre post err heq hall herr
            show downloadFile rest = some .streamError
            cases pre with
            | nil =>
                rcases herr with h | h <;> (subst h; simp at heq)
            | cons b pre2 =>
                have hb := hall b (by simp)
                subst hb
                rw [List.cons_append] at heq
                injection heq with h1 h2
                exact ih.2 pre2 post err h2
                  (fun e he => hall e (List.mem_cons_of_mem _ he)) herr
      | srcError =>
          constructor
          · constructor
            · intro h
              simp [downloadFile] at h
            · rintro ⟨pre, post, heq, hall⟩
              cases pre with
              | nil => simp at heq
              | cons b pre2 =>
                  have hb := hall b (by simp)
                  subst hb
                  rw [List.cons_append] at heq
                  simp at heq
          · intro _ _ _ _ _ _
            rfl
      | sinkError =>
          constructor
          · constructor
            · intro h
              simp [downloadFile] at h
            · rintro ⟨pre, post, heq, hall⟩
              cases pre with
              | nil => simp at heq
              | cons b pre2 =>
                  have hb := hall b (by simp)
                  subst hb
                  rw [List.cons_append] at heq
                  simp at heq
          · intro _ _ _ _ _ _
            rfl
      | sinkClose =>
          constructor
          · constructor
            · intro _
              exact ⟨[], rest, rfl, by simp⟩
            · intro _
              rfl
          · intro pre post err heq hall herr
            exfalso
            cases pre with
            | nil =>
                rcases herr with h | h <;> (subst h; simp at heq)
            | cons b pre2 =>
                have hb := hall b (by simp)
                subst hb
                rw [List.cons_append] at heq
                simp at heq

/-- Witness for claim C8: a source-stream error after a data chunk fails the
transfer; a sink close after a data chunk succeeds it. -/
theorem downloadFile_stream_errors_witness :
    downloadFile [.dataChunk, .srcError] = some .streamError ∧
      downloadFile [.dataChunk, .sinkClose] = some .success :=
  ⟨(downloadFile_stream_errors [.dataChunk, .srcError]).2 [.dataChunk] []
      .srcError rfl (by decide) (Or.inl rfl),
    (downloadFile_stream_errors [.dataChunk, .sinkClose]).1.mpr
      ⟨[.dataChunk], [], rfl, by decide⟩⟩

/-- Claim C10: the matcher's output is a sublist of its input — every
returned element is one of the original un-stripped keys, in the input's
relative order, with multiplicity bounded by the input's. -/
theorem matchObjectKeys_sublist (allKeys : List String) (sourceFolder : String)
    (matcher : String → Bool) :
    (matchObjectKeys allKeys sourceFolder matcher).Sublist allKeys ∧
      (∀ k ∈ matchObjectKeys allKeys sourceFolder matcher, k ∈ allKeys) ∧
      (∀ k, (matchObjectKeys allKeys sourceFolder matcher).count k
        ≤ allKeys.count k) := by
  refine ⟨List.filter_sublist allKeys, ?_, ?_⟩
  · intro k hk
    exact (List.filter_sublist allKeys).subset hk
  · intro k
    exact (List.filter_sublist allKeys).count_le k

/-- Witness for claim C10 at a concrete key set. -/
theorem matchObjectKeys_sublist_witness :
    (matchObjectKeys ["docs/a.txt", "images/c.png"] "docs"
        (fun s => strEndsWith s ".txt")).Sublist
      ["docs/a.txt", "images/c.png"] :=
  (matchObjectKeys_sublist ["docs/a.txt", "images/c.png"] "docs"
    (fun s => strEndsWith s ".txt")).1

end S3Download

namespace SdkUtilsM

/-- Claim C9: an input already in ARN form (starting with `arn:`) is returned
unchanged; otherwise the name is resolved through the IAM collaborator, whose
ARN is returned on success and whose failure is rethrown as an
`Error while obtaining ARN`. -/
theorem roleArnFromName_resolution (getRole : String → Except String String)
    (roleName : String) :
    (S3Download.strStartsWith roleName "arn:" = true →
      roleArnFromName getRole roleName = .ok roleName) ∧
    (S3Download.strStartsWith roleName "arn:" = false →
      (∀ arn, getRole roleName = .ok arn →
        roleArnFromName getRole roleName = .ok arn) ∧
      (∀ err, getRole roleName = .error err →
        roleArnFromName getRole roleName
          = .error ("Error while obtaining ARN: " ++ err))) := by
  refine ⟨fun h => by simp [roleArnFromName, h],
    fun h => ⟨fun arn ha => ?_, fun err he => ?_⟩⟩
  · simp [roleArnFromName, h, ha]
  · simp [roleArnFromName, h, he]

/-- Witness for claim C9: a canonical ARN passes through unchanged, and a
plain role name resolves through the collaborator. -/
theorem roleArnFromName_resolution_witness :
    roleArnFromName (fun _ => .error "unused") "arn:aws:iam::1:role/r"
        = .ok "arn:aws:iam::1:role/r" ∧
      roleArnFromName (fun _ => .ok "arn:resolved") "myrole"
        = .ok "arn:resolved" :=
  ⟨(roleArnFromName_resolution (fun _ => .error "unused")
      "arn:aws:iam::1:role/r").1 (by decide),
    ((roleArnFromName_resolution (fun _ => .ok "arn:resolved") "myrole").2
      (by decide)).1 "arn:resolved" rfl⟩

end SdkUtilsM
